import Mathlib

/-!
Shallow embedding of `src/Effects/Fx.js` (the MooTools `Fx` effects engine).

The engine is a time-driven numeric interpolation state machine.  We model
JavaScript numbers as rationals (`ℚ`), the implicit wall clock `$time()` as an
explicit time argument to `start` and `step`, and the periodical timer handle as
an `Option ℤ` field holding the scheduled interval `Math.round(1000 / fps)`
(presence of the handle is the sole "running" indicator, matching the source).

Observable behaviour (calls to the abstract `increase` apply hook and events
fired through the `Events` mixin's `fireEvent`) is recorded as a trace of
`FxEvent`s returned alongside the successor state.  In the source,
`fireEvent('onComplete', this.element, 10)` defers the listeners by 10 ms; the
trace records the order in which events are *fired*, which is the order the
source issues them.
-/

namespace Fx

/-- Observable actions of the engine: the four lifecycle events fired via the
`Events` mixin, an invocation of the abstract `increase` apply hook (recorded
with the value of `this.now` it observes), and the invocation of a queued chain
action by `callChain`. -/
inductive FxEvent where
  | onStart
  | onComplete
  | onCancel
  | onSet
  | increase (v : ℚ)
  | chainInvoke (a : ℕ)
  deriving DecidableEq, Repr

/-- The `options` record of an `Fx` instance: `transition` (the easing
function), `duration` (ms), `wait` and `fps`.  The `unit` option is a pass-through
string never read by this file's code and is omitted. -/
structure FxOptions where
  transition : ℚ → ℚ
  duration : ℚ
  wait : Bool
  fps : ℚ

/-- The mutable fields of an `Fx` instance.  `timer` is the periodical handle
(`none` = idle); `chains` is the queue of deferred follow-up actions held by the
`Chain` mixin, modelled as a list of action identifiers. -/
structure FxState where
  «from» : ℚ
  «to» : ℚ
  change : ℚ
  time : ℚ
  delta : ℚ
  now : ℚ
  timer : Option ℤ
  chains : List ℕ
  options : FxOptions

/-- Source `compute(from, to)`: `return (to - from) * this.delta + from;`. -/
def compute (s : FxState) («from» «to» : ℚ) : ℚ :=
  («to» - «from») * s.delta + «from»

/-- Source `setNow()`: `this.now = this.compute(this.from, this.to);`. -/
def setNow (s : FxState) : FxState :=
  { s with now := compute s s.«from» s.«to» }

/-- Source `set(to)`: sets `now`, invokes the apply hook, fires `onSet`. -/
def set («to» : ℚ) (s : FxState) : FxState × List FxEvent :=
  ({ s with now := «to» }, [FxEvent.increase «to», FxEvent.onSet])

/-- Source `stop(ignore)`: no-op when idle; otherwise clear the timer and fire
`onCancel` unless `ignore` is truthy. -/
def stop (ignore : Bool) (s : FxState) : FxState × List FxEvent :=
  match s.timer with
  | none => (s, [])
  | some _ =>
      ({ s with timer := none }, if ignore then [] else [FxEvent.onCancel])

/-- Modelled from the spec: the `Chain` mixin's drain operation (`callChain` in
the source lives outside `src/`).  Per §6, it "pops and invokes the
earliest-queued callable with the engine instance as receiver, no-op if empty". -/
def callChain (s : FxState) : FxState × List FxEvent :=
  match s.chains with
  | [] => (s, [])
  | a :: rest => ({ s with chains := rest }, [FxEvent.chainInvoke a])

/-- Modelled from the spec: the `Chain` mixin's append operation (`chain` in the
source lives outside `src/`).  Per §6, it appends a callable to the queue. -/
def chain (a : ℕ) (s : FxState) : FxState :=
  { s with chains := s.chains ++ [a] }

/-- Source `step()`, with the wall clock `$time()` passed explicitly as `t`.
While `t < this.time + duration` it updates `delta` and `now` and invokes the
apply hook; otherwise it calls `stop(true)`, snaps `now` to `to`, invokes the
apply hook, fires `onComplete` (with a 10 ms listener delay in the source) and
calls `callChain`. -/
def step (t : ℚ) (s : FxState) : FxState × List FxEvent :=
  if t < s.time + s.options.duration then
    let s1 := setNow { s with delta := s.options.transition ((t - s.time) / s.options.duration) }
    (s1, [FxEvent.increase s1.now])
  else
    let p1 := stop true s
    let s2 := { p1.1 with now := p1.1.«to» }
    let p3 := callChain s2
    (p3.1, p1.2 ++ [FxEvent.increase s2.now, FxEvent.onComplete] ++ p3.2)

/-- The periodical interval `Math.round(1000 / this.options.fps)` used when
`start` schedules the tick. -/
def interval (s : FxState) : ℤ :=
  round ((1000 : ℚ) / s.options.fps)

/-- The body shared by the accepting paths of `start`: set `from`, `to`,
`change`, `time`, schedule the timer, fire `onStart` (after any `pre` events
already fired on this call). -/
def startRun («from» «to» t : ℚ) (s : FxState) (pre : List FxEvent) : FxState × List FxEvent :=
  ({ s with «from» := «from», «to» := «to», change := «to» - «from», time := t,
            timer := some (interval s) },
   pre ++ [FxEvent.onStart])

/-- Source `start(from, to)`, with `$time()` passed explicitly as `t`:
if `wait` is false, `stop()` first (firing `onCancel` when running); else if a
timer is set, return unchanged; otherwise run the body. -/
def start («from» «to» t : ℚ) (s : FxState) : FxState × List FxEvent :=
  if s.options.wait = false then
    let p := stop false s
    startRun «from» «to» t p.1 p.2
  else if s.timer.isSome then (s, [])
  else startRun «from» «to» t s []

/-- Folds `step` over a list of tick times, discarding traces; used to state
whole-run properties. -/
def ticks : List ℚ → FxState → FxState
  | [], s => s
  | t :: ts, s => ticks ts (step t s).1

/-- Forgets the cached `change` field (sets it to 0); used to state that all
other fields evolve identically regardless of `change`. -/
def eraseChange (s : FxState) : FxState :=
  { s with change := 0 }

/-! Concrete sample states used by the witnesses. -/

/-- Sample options: identity easing, duration 500 ms, `wait = true`, 50 fps. -/
def linOpts : FxOptions :=
  { transition := fun p => p, duration := 500, wait := true, fps := 50 }

/-- Sample idle instance (no timer). -/
def idleS : FxState :=
  { «from» := 0, «to» := 0, change := 0, time := 0, delta := 0, now := 0,
    timer := none, chains := [], options := linOpts }

/-- Sample instance with a run in progress (timer scheduled at 20 ms). -/
def runningS : FxState :=
  { idleS with «to» := 1, change := 1, timer := some 20 }

/-- Sample running instance with `wait = false`. -/
def noWaitS : FxState :=
  { runningS with options := { linOpts with wait := false } }

/-- Sample running instance whose easing overshoots: constant transition 2. -/
def overshootS : FxState :=
  { runningS with options := { linOpts with transition := fun _ => 2 } }

/-- Sample running instance with one queued chain action. -/
def chainedS : FxState :=
  { runningS with chains := [4] }

/-! Helper lemmas shared by the claim theorems' proofs. -/

/-- A mid-run tick (`t < time + duration`) only rewrites `delta` and `now` and
emits a single apply-hook invocation. -/
theorem step_mid_eq (t : ℚ) (s : FxState) (h : t < s.time + s.options.duration) :
    step t s =
      ({ s with delta := s.options.transition ((t - s.time) / s.options.duration),
                now := (s.«to» - s.«from») * s.options.transition ((t - s.time) / s.options.duration)
                         + s.«from» },
       [FxEvent.increase ((s.«to» - s.«from») * s.options.transition ((t - s.time) / s.options.duration)
                         + s.«from»)]) := by
  simp [step, setNow, compute, h]

/-- From an idle state, `start` is accepted regardless of the `wait` option. -/
theorem start_idle_eq («from» «to» t : ℚ) (s : FxState) (h : s.timer = none) :
    start «from» «to» t s =
      ({ s with «from» := «from», «to» := «to», change := «to» - «from», time := t,
                timer := some (interval s) },
       [FxEvent.onStart]) := by
  cases hw : s.options.wait <;> simp [start, startRun, stop, h, hw]

/-- Mid-run ticks preserve `to`, `time`, `options`, `timer` and the chain queue. -/
theorem ticks_inv (ts : List ℚ) (s : FxState)
    (h : ∀ t ∈ ts, t < s.time + s.options.duration) :
    (ticks ts s).«to» = s.«to» ∧ (ticks ts s).time = s.time ∧
      (ticks ts s).options = s.options := by
  induction ts generalizing s with
  | nil => simp [ticks]
  | cons t ts ih =>
      have h1 : t < s.time + s.options.duration := h t (by simp)
      have hs := step_mid_eq t s h1
      have := ih (step t s).1 (by
        intro u hu
        rw [hs]
        exact h u (by simp [hu]))
      simpa [ticks, hs] using this

/-- A completing tick (`time + duration ≤ t`) snaps `now` to the exact target
`to` and invokes the apply hook with it, whatever the timer and chain queue. -/
theorem step_done_now (t : ℚ) (s : FxState) (h : s.time + s.options.duration ≤ t) :
    (step t s).1.now = s.«to» ∧ FxEvent.increase s.«to» ∈ (step t s).2 := by
  have h' : ¬ t < s.time + s.options.duration := not_lt.2 h
  cases htm : s.timer <;> cases hch : s.chains <;>
    simp [step, stop, callChain, htm, hch, h']

/-! Claim theorems. -/

/-- C8: on an idle instance (no timer), `stop` is a no-op for either value of
the `ignore` argument: same state, no events. -/
theorem stop_idle_noop (s : FxState) (h : s.timer = none) (ignore : Bool) :
    stop ignore s = (s, []) := by
  simp [stop, h]

/-- Witness for C8 at a concrete idle state. -/
theorem stop_idle_noop_witness :
    idleS.timer = none ∧ stop true idleS = (idleS, []) ∧ stop false idleS = (idleS, []) :=
  ⟨rfl, stop_idle_noop idleS rfl true, stop_idle_noop idleS rfl false⟩

/-- C3: with `wait = true` and a run in progress, `start` returns the instance
with every field (`from`, `to`, `change`, `time`, `timer`) unchanged, schedules
nothing and fires no event. -/
theorem start_wait_rejects («from» «to» t : ℚ) (s : FxState)
    (hw : s.options.wait = true) (hr : s.timer.isSome) :
    start «from» «to» t s = (s, []) := by
  simp [start, hw, hr]

/-- Witness for C3 at a concrete running state with `wait = true`. -/
theorem start_wait_rejects_witness :
    runningS.options.wait = true ∧ runningS.timer.isSome ∧
      start 7 9 123 runningS = (runningS, []) :=
  ⟨rfl, rfl, start_wait_rejects 7 9 123 runningS rfl rfl⟩

/-- C4: with `wait = false` and a run in progress, `start` fires `onCancel` for
the old run (the normal `stop` contract), then sets `from = a`, `to = b`,
`change = b - a` and the start timestamp, schedules the periodic tick, and then
fires `onStart` — in that order. -/
theorem start_preempts (a b t : ℚ) (s : FxState)
    (hw : s.options.wait = false) (h : ℤ) (hr : s.timer = some h) :
    start a b t s =
      ({ s with «from» := a, «to» := b, change := b - a, time := t,
                timer := some (interval s) },
       [FxEvent.onCancel, FxEvent.onStart]) := by
  simp [start, startRun, stop, interval, hw, hr]

/-- Witness for C4 at a concrete running state with `wait = false`. -/
theorem start_preempts_witness :
    noWaitS.options.wait = false ∧ noWaitS.timer = some 20 ∧
      start 2 5 40 noWaitS =
        ({ noWaitS with «from» := 2, «to» := 5, change := 5 - 2, time := 40,
                        timer := some (interval noWaitS) },
         [FxEvent.onCancel, FxEvent.onStart]) :=
  ⟨rfl, rfl, start_preempts 2 5 40 noWaitS rfl 20 rfl⟩

/-- C5: during an active run, explicit `stop` (with `ignore = false`, i.e. no
argument) fires `onCancel` exactly once and `onComplete` never; a naturally
completing tick (`time + duration ≤ t`) fires `onComplete` exactly once and
`onCancel` never. -/
theorem cancel_complete_distinct (s : FxState) (h : ℤ) (hr : s.timer = some h)
    (t : ℚ) (hc : s.time + s.options.duration ≤ t) :
    ((stop false s).2.count FxEvent.onCancel = 1 ∧
      (stop false s).2.count FxEvent.onComplete = 0) ∧
    ((step t s).2.count FxEvent.onComplete = 1 ∧
      (step t s).2.count FxEvent.onCancel = 0) := by
  have hc' : ¬ t < s.time + s.options.duration := not_lt.2 hc
  refine ⟨⟨by simp [stop, hr], by simp [stop, hr]⟩, ?_, ?_⟩ <;>
    cases hch : s.chains <;>
      simp [step, stop, callChain, hr, hc', hch, List.count_cons]

/-- Witness for C5 at a concrete running state and a completing tick time. -/
theorem cancel_complete_distinct_witness :
    runningS.timer = some 20 ∧ runningS.time + runningS.options.duration ≤ 700 ∧
    ((stop false runningS).2.count FxEvent.onCancel = 1 ∧
      (stop false runningS).2.count FxEvent.onComplete = 0) ∧
    ((step 700 runningS).2.count FxEvent.onComplete = 1 ∧
      (step 700 runningS).2.count FxEvent.onCancel = 0) :=
  ⟨rfl, by norm_num [runningS, idleS, linOpts],
    cancel_complete_distinct runningS 20 rfl 700 (by norm_num [runningS, idleS, linOpts])⟩

/-- C6: the interpolator is linear — `compute` returns
`from + (to - from) * delta` — and a mid-run tick sets
`delta = transition(elapsed / duration)` and `now = from + (to - from) * delta`
before invoking the apply hook with exactly that value. -/
theorem interpolation_linear (s : FxState) (a b t : ℚ)
    (hc : t < s.time + s.options.duration) :
    compute s a b = a + (b - a) * s.delta ∧
    (step t s).1.delta = s.options.transition ((t - s.time) / s.options.duration) ∧
    (step t s).1.now =
      s.«from» + (s.«to» - s.«from») *
        s.options.transition ((t - s.time) / s.options.duration) ∧
    (step t s).2 = [FxEvent.increase ((step t s).1.now)] := by
  refine ⟨by simp [compute]; ring, ?_, ?_, ?_⟩
  · simp [step, setNow, compute, hc]
  · simp [step, setNow, compute, hc]
    ring
  · simp [step, setNow, compute, hc]

/-- Witness for C6 at a concrete running state and mid-run tick time. -/
theorem interpolation_linear_witness :
    (250 : ℚ) < runningS.time + runningS.options.duration ∧
    compute runningS 0 10 = 0 + (10 - 0) * runningS.delta ∧
    (step 250 runningS).1.delta =
      runningS.options.transition ((250 - runningS.time) / runningS.options.duration) ∧
    (step 250 runningS).1.now =
      runningS.«from» + (runningS.«to» - runningS.«from») *
        runningS.options.transition ((250 - runningS.time) / runningS.options.duration) ∧
    (step 250 runningS).2 = [FxEvent.increase ((step 250 runningS).1.now)] :=
  ⟨by norm_num [runningS, idleS, linOpts],
    interpolation_linear runningS 0 10 250 (by norm_num [runningS, idleS, linOpts])⟩

/-- C7: whenever the easing function is evaluated (only on a mid-run tick, with
a monotone clock `time ≤ t` and positive duration), its argument
`(t - time) / duration` lies in `[0, 1]`; its output feeds `delta` unclamped, so
an overshooting easing makes `now` leave `[from, to]` — at `overshootS` (a run
from 0 to 1 whose easing returns 2) the tick sets `now = 2 > 1`. -/
theorem transition_arg_in_unit_interval (s : FxState) (t : ℚ)
    (hd : 0 < s.options.duration) (hm : s.time ≤ t)
    (hc : t < s.time + s.options.duration) :
    (step t s).1.delta = s.options.transition ((t - s.time) / s.options.duration) ∧
    0 ≤ (t - s.time) / s.options.duration ∧
    (t - s.time) / s.options.duration ≤ 1 ∧
    ((step 250 overshootS).1.delta = 2 ∧ (step 250 overshootS).1.now = 2 ∧
      overshootS.«from» = 0 ∧ overshootS.«to» = 1 ∧ ¬ (2 : ℚ) ≤ 1) := by
  refine ⟨?_, div_nonneg (sub_nonneg.2 hm) hd.le, (div_le_one hd).2 (by linarith), ?_⟩
  · simp [step, setNow, hc]
  · refine ⟨?_, ?_, rfl, rfl, by norm_num⟩ <;>
      simp [step, setNow, compute, overshootS, runningS, idleS, linOpts] <;> norm_num

/-- Witness for C7 at a concrete running state and mid-run tick time. -/
theorem transition_arg_in_unit_interval_witness :
    (0 : ℚ) < runningS.options.duration ∧ runningS.time ≤ 250 ∧
    (250 : ℚ) < runningS.time + runningS.options.duration ∧
    ((step 250 runningS).1.delta =
        runningS.options.transition ((250 - runningS.time) / runningS.options.duration) ∧
      0 ≤ (250 - runningS.time) / runningS.options.duration ∧
      (250 - runningS.time) / runningS.options.duration ≤ 1 ∧
      ((step 250 overshootS).1.delta = 2 ∧ (step 250 overshootS).1.now = 2 ∧
        overshootS.«from» = 0 ∧ overshootS.«to» = 1 ∧ ¬ (2 : ℚ) ≤ 1)) :=
  ⟨by norm_num [runningS, idleS, linOpts], by norm_num [runningS, idleS, linOpts],
    by norm_num [runningS, idleS, linOpts],
    transition_arg_in_unit_interval runningS 250
      (by norm_num [runningS, idleS, linOpts])
      (by norm_num [runningS, idleS, linOpts])
      (by norm_num [runningS, idleS, linOpts])⟩

/-- C9: on a completing tick the timer is already cleared (via `stop(true)`)
when the queued chain action is invoked: the state handed to the chain action
has `timer = none` and `now = to`, the action is invoked after `onComplete`,
and a `start` issued by that action is accepted even under `wait = true`. -/
theorem completion_chain_sees_idle (s : FxState) (t : ℚ)
    (hc : s.time + s.options.duration ≤ t) (a : ℕ) (rest : List ℕ)
    (hch : s.chains = a :: rest) :
    (step t s).1.timer = none ∧
    (step t s).1.now = s.«to» ∧
    (step t s).2 =
      [FxEvent.increase s.«to», FxEvent.onComplete, FxEvent.chainInvoke a] ∧
    (step t s).1.chains = rest ∧
    ∀ a' b' t', start a' b' t' (step t s).1 =
      ({ (step t s).1 with «from» := a', «to» := b', change := b' - a', time := t',
                           timer := some (interval (step t s).1) },
       [FxEvent.onStart]) := by
  have h' : ¬ t < s.time + s.options.duration := not_lt.2 hc
  have htimer : (step t s).1.timer = none := by
    cases htm : s.timer <;> simp [step, stop, callChain, htm, hch, h']
  refine ⟨htimer, ?_, ?_, ?_, fun a' b' t' => start_idle_eq a' b' t' (step t s).1 htimer⟩ <;>
    cases htm : s.timer <;> simp [step, stop, callChain, htm, hch, h']

/-- Witness for C9 at a concrete running state with one queued action. -/
theorem completion_chain_sees_idle_witness :
    chainedS.time + chainedS.options.duration ≤ 600 ∧
    chainedS.chains = 4 :: [] ∧
    (step 600 chainedS).1.timer = none ∧
    (step 600 chainedS).1.now = chainedS.«to» ∧
    (step 600 chainedS).2 =
      [FxEvent.increase chainedS.«to», FxEvent.onComplete, FxEvent.chainInvoke 4] ∧
    (step 600 chainedS).1.chains = [] ∧
    ∀ a' b' t', start a' b' t' (step 600 chainedS).1 =
      ({ (step 600 chainedS).1 with
          «from» := a', «to» := b', change := b' - a', time := t',
          timer := some (interval (step 600 chainedS).1) },
       [FxEvent.onStart]) := by
  have h := completion_chain_sees_idle chainedS 600
    (by norm_num [chainedS, runningS, idleS, linOpts]) 4 [] rfl
  exact ⟨by norm_num [chainedS, runningS, idleS, linOpts], rfl,
    h.1, h.2.1, h.2.2.1, h.2.2.2.1, h.2.2.2.2⟩

/-- C1: enqueue two follow-up actions after an accepted `start`; a mid-run tick
invokes no chain action and leaves the queue untouched, while the completing
tick fires `onComplete` first and only then invokes exactly the first-queued
action (FIFO), removing it from the queue so it cannot run again. -/
theorem chain_fifo_after_complete (s0 : FxState) (a b t0 : ℚ) (h0 : s0.timer = none)
    (hch : s0.chains = []) (a1 a2 : ℕ) (tn tf : ℚ)
    (hn : tn < t0 + s0.options.duration) (hf : t0 + s0.options.duration ≤ tf) :
    ((step tn (chain a2 (chain a1 (start a b t0 s0).1))).1.chains = [a1, a2] ∧
      ∀ c, FxEvent.chainInvoke c ∉ (step tn (chain a2 (chain a1 (start a b t0 s0).1))).2) ∧
    (step tf (chain a2 (chain a1 (start a b t0 s0).1))).2 =
      [FxEvent.increase b, FxEvent.onComplete, FxEvent.chainInvoke a1] ∧
    (step tf (chain a2 (chain a1 (start a b t0 s0).1))).1.chains = [a2] := by
  have hs1 := start_idle_eq a b t0 s0 h0
  have hf' : ¬ tf < t0 + s0.options.duration := not_lt.2 hf
  refine ⟨⟨?_, ?_⟩, ?_, ?_⟩ <;>
    simp [hs1, chain, step, setNow, compute, stop, callChain, hch, hn, hf']

/-- Witness for C1: a full concrete run with two queued actions. -/
theorem chain_fifo_after_complete_witness :
    idleS.timer = none ∧ idleS.chains = [] ∧
    (100 : ℚ) < 0 + idleS.options.duration ∧ 0 + idleS.options.duration ≤ 500 ∧
    (((step 100 (chain 8 (chain 7 (start 1 0 0 idleS).1))).1.chains = [7, 8] ∧
        ∀ c, FxEvent.chainInvoke c ∉ (step 100 (chain 8 (chain 7 (start 1 0 0 idleS).1))).2) ∧
      (step 500 (chain 8 (chain 7 (start 1 0 0 idleS).1))).2 =
        [FxEvent.increase 0, FxEvent.onComplete, FxEvent.chainInvoke 7] ∧
      (step 500 (chain 8 (chain 7 (start 1 0 0 idleS).1))).1.chains = [8]) :=
  ⟨rfl, rfl, by norm_num [idleS, linOpts], by norm_num [idleS, linOpts],
    chain_fifo_after_complete idleS 1 0 0 rfl rfl 7 8 100 500
      (by norm_num [idleS, linOpts]) (by norm_num [idleS, linOpts])⟩

/-- C2: after an accepted `start a b` at `t0` and any number of mid-run ticks,
the completing tick sets `now` to exactly `b` — the `to` passed to `start`, not
the last eased value — and invokes the apply hook with exactly `b`. -/
theorem completion_sets_exact_target (s0 : FxState) (a b t0 : ℚ) (h0 : s0.timer = none)
    (ts : List ℚ) (hts : ∀ u ∈ ts, u < t0 + s0.options.duration)
    (tf : ℚ) (hf : t0 + s0.options.duration ≤ tf) :
    (step tf (ticks ts (start a b t0 s0).1)).1.now = b ∧
    FxEvent.increase b ∈ (step tf (ticks ts (start a b t0 s0).1)).2 := by
  have hs1 := start_idle_eq a b t0 s0 h0
  have h1 : (start a b t0 s0).1 =
      { s0 with «from» := a, «to» := b, change := b - a, time := t0,
                timer := some (interval s0) } := by rw [hs1]
  have hinv := ticks_inv ts (start a b t0 s0).1 (by
    intro u hu
    rw [h1]
    exact hts u hu)
  have hdone := step_done_now tf (ticks ts (start a b t0 s0).1) (by
    rw [hinv.2.1, hinv.2.2, h1]
    exact hf)
  have hto : (ticks ts (start a b t0 s0).1).«to» = b := by rw [hinv.1, h1]
  have h2 := hdone.2
  rw [hto] at h2
  exact ⟨by rw [hdone.1, hto], h2⟩

/-- Witness for C2: a concrete run with two mid-run ticks completing at `now = 1`. -/
theorem completion_sets_exact_target_witness :
    idleS.timer = none ∧
    (∀ u ∈ [10, 250], u < 0 + idleS.options.duration) ∧
    0 + idleS.options.duration ≤ 500 ∧
    (step 500 (ticks [10, 250] (start 0 1 0 idleS).1)).1.now = 1 ∧
    FxEvent.increase 1 ∈ (step 500 (ticks [10, 250] (start 0 1 0 idleS).1)).2 := by
  have h := completion_sets_exact_target idleS 0 1 0 rfl [10, 250]
    (by intro u hu; fin_cases hu <;> norm_num [idleS, linOpts])
    500 (by norm_num [idleS, linOpts])
  exact ⟨rfl, by intro u hu; fin_cases hu <;> norm_num [idleS, linOpts],
    by norm_num [idleS, linOpts], h.1, h.2⟩

/-- C10: the cached `change` field is written by an accepted `start` but never
read: states differing only in `change` produce identical traces under `step`,
`set`, `stop` and `start`, and identical updates to every other field. -/
theorem change_field_unread (s : FxState) (c v t a b u : ℚ) (ig : Bool) :
    step t { s with change := c } =
      ({ (step t s).1 with change := c }, (step t s).2) ∧
    set v { s with change := c } = ({ (set v s).1 with change := c }, (set v s).2) ∧
    stop ig { s with change := c } = ({ (stop ig s).1 with change := c }, (stop ig s).2) ∧
    (start a b u { s with change := c }).2 = (start a b u s).2 ∧
    eraseChange (start a b u { s with change := c }).1 =
      eraseChange (start a b u s).1 := by
  refine ⟨?_, ?_, ?_, ?_, ?_⟩
  · by_cases hcond : t < s.time + s.options.duration <;>
      cases htm : s.timer <;> cases hch : s.chains <;>
        simp [step, setNow, compute, stop, callChain, htm, hch, hcond]
  · simp [set]
  · cases htm : s.timer <;> simp [stop, htm]
  · cases hw : s.options.wait <;> cases htm : s.timer <;>
      simp [start, startRun, stop, interval, hw, htm]
  · cases hw : s.options.wait <;> cases htm : s.timer <;>
      simp [start, startRun, stop, interval, eraseChange, hw, htm]

end Fx
